import Mathlib

/-!
Verification development for the adjustment-set core of the
CausalTestingFramework repository (causal_testing/specification/causal_dag.py).

The Python code operates over networkx graphs whose node sets, edge sets
and intermediate variable sets are Python sets.  The embedding represents
every set as a duplicate-free list kept in ascending order (the canonical
representative of the set, so that list equality is set equality), and
translates every function of causal_dag.py that the examined properties
touch.  Python exceptions are modelled with an explicit error type `PyErr`
and the `Except` monad; the random branching choice in `list_all_min_sep`
(`random.sample`) is modelled by computing the finite set of run outcomes
reachable under every possible sequence of choices.
-/

set_option maxRecDepth 10000
set_option linter.unusedSectionVars false

/-- Error kinds raised by the embedded Python code: `nx.HasACycle`,
`ValueError`, `TypeError` (from `set.union()` with no arguments),
`IndexError` (unknown node in `get_proper_backdoor_graph`) and
`NetworkXError` (from `nx.neighbors` and friends on an absent node). -/
inductive PyErr : Type where
  | hasACycle : PyErr
  | valueError : PyErr
  | typeError : PyErr
  | indexError : PyErr
  | networkxError : PyErr
deriving DecidableEq

instance {α β : Type} [DecidableEq α] [DecidableEq β] : DecidableEq (Except α β) :=
  fun a b =>
    match a, b with
    | .ok x, .ok y => if h : x = y then isTrue (by rw [h]) else isFalse (by simp [h])
    | .error x, .error y => if h : x = y then isTrue (by rw [h]) else isFalse (by simp [h])
    | .ok _, .error _ => isFalse (by simp)
    | .error _, .ok _ => isFalse (by simp)

variable {V : Type} [LinearOrder V]

/-- Insert an element into a canonical (sorted, duplicate-free) list,
keeping it canonical. -/
def nsInsert (a : V) : List V → List V
  | [] => [a]
  | x :: xs =>
    if a < x then a :: x :: xs
    else if a = x then x :: xs
    else x :: nsInsert a xs

/-- Canonical set built from an arbitrary list (the Python `set(l)`). -/
def nsOf (l : List V) : List V :=
  l.foldl (fun acc v => nsInsert v acc) []

/-- Set union; the first argument must be canonical and the result is
canonical. -/
def nsUnion (s t : List V) : List V :=
  t.foldl (fun acc v => nsInsert v acc) s

/-- Set difference of two lists. -/
def nsDiff (s t : List V) : List V :=
  s.filter (fun v => decide (v ∉ t))

/-- Set intersection of two lists. -/
def nsInter (s t : List V) : List V :=
  s.filter (fun v => decide (v ∈ t))

/-- Union of a set-valued function over a list, producing a canonical
set. -/
def nsBigUnion (s : List V) (f : V → List V) : List V :=
  s.foldl (fun acc v => nsUnion acc (f v)) []

/-- Embedding of a networkx `DiGraph`: node list and directed edge list.
The node list is kept canonical; the edge list order is irrelevant to
every operation below (edges are only filtered and membership-tested). -/
structure NxDiGraph (V : Type) where
  nodes : List V
  edges : List (V × V)
deriving DecidableEq

/-- Embedding of an undirected networkx `Graph`: adjacency is the
symmetric closure of the stored edge list. -/
structure NxGraph (V : Type) where
  nodes : List V
  edges : List (V × V)
deriving DecidableEq

/-- Successors of a node in a directed graph, as a canonical set. -/
def NxDiGraph.successors (g : NxDiGraph V) (v : V) : List V :=
  g.edges.foldl (fun acc e => if e.1 = v then nsInsert e.2 acc else acc) []

/-- Predecessors of a node in a directed graph, as a canonical set. -/
def NxDiGraph.predecessors (g : NxDiGraph V) (v : V) : List V :=
  g.edges.foldl (fun acc e => if e.2 = v then nsInsert e.1 acc else acc) []

/-- Undirected adjacency: the symmetric closure of the stored edges. -/
def NxGraph.adj (g : NxGraph V) (u v : V) : Bool :=
  decide ((u, v) ∈ g.edges ∨ (v, u) ∈ g.edges)

/-- Neighbours of a node in an undirected graph (`nx.neighbors`), as a
canonical set. -/
def NxGraph.neighbors (g : NxGraph V) (v : V) : List V :=
  g.nodes.filter (fun w => g.adj v w)

/-- Monotone fixpoint iteration with fuel, used for reachability.  The
step function is applied until the set stops changing or the fuel is
exhausted; every graph traversal below supplies the node count as fuel,
which suffices because each productive step adds at least one node. -/
def iterFix (f : List V → List V) : Nat → List V → List V
  | 0, s => s
  | n + 1, s => let s' := f s; if s' = s then s else iterFix f n s'

/-- Nodes reachable from the seed set along directed edges (the seed set
is included; the seed must be canonical). -/
def NxDiGraph.reachFrom (g : NxDiGraph V) (s : List V) : List V :=
  iterFix (fun t => nsUnion t (nsBigUnion t g.successors)) g.nodes.length s

/-- Nodes from which the seed set is reachable along directed edges (the
seed set is included; the seed must be canonical). -/
def NxDiGraph.coreachFrom (g : NxDiGraph V) (s : List V) : List V :=
  iterFix (fun t => nsUnion t (nsBigUnion t g.predecessors)) g.nodes.length s

/-- Embedding of `nx.descendants`: all nodes reachable from `v`, with
`v` itself removed. -/
def NxDiGraph.descendants (g : NxDiGraph V) (v : V) : List V :=
  nsDiff (g.reachFrom [v]) [v]

/-- Embedding of `nx.ancestors`: all nodes from which `v` is reachable,
with `v` itself removed. -/
def NxDiGraph.ancestors (g : NxDiGraph V) (v : V) : List V :=
  nsDiff (g.coreachFrom [v]) [v]

/-- Remove a set of nodes and all incident edges from a directed graph. -/
def NxDiGraph.removeNodes (g : NxDiGraph V) (s : List V) : NxDiGraph V :=
  { nodes := nsDiff g.nodes s,
    edges := g.edges.filter (fun e => decide (e.1 ∉ s ∧ e.2 ∉ s)) }

/-- Remove a set of nodes and all incident edges from an undirected
graph (`remove_nodes_from`). -/
def NxGraph.removeNodes (g : NxGraph V) (s : List V) : NxGraph V :=
  { nodes := nsDiff g.nodes s,
    edges := g.edges.filter (fun e => decide (e.1 ∉ s ∧ e.2 ∉ s)) }

/-- Add undirected edges (`add_edges_from`); missing endpoints are added
to the node set, as networkx does, and duplicate edges are not stored
twice. -/
def NxGraph.addEdges (g : NxGraph V) (l : List (V × V)) : NxGraph V :=
  { nodes := l.foldl (fun s e => nsInsert e.1 (nsInsert e.2 s)) g.nodes,
    edges := l.foldl (fun es e => if e ∈ es then es else es ++ [e]) g.edges }

/-- Connected component of `v` in an undirected graph: all nodes
reachable from `v` through the symmetric adjacency.  When `v` is not a
node of the graph the component is empty, matching the Python loops that
scan `nx.connected_components` and leave their accumulator untouched
when no component contains the sought node. -/
def NxGraph.componentOf (g : NxGraph V) (v : V) : List V :=
  if v ∈ g.nodes then
    iterFix (fun t => nsUnion t (nsBigUnion t g.neighbors)) g.nodes.length [v]
  else []

/-- Embedding of `nx.moral_graph`: keep the skeleton of the directed
graph and marry the parents of every node.  Both orientations of a
married pair are recorded; the adjacency relation is the symmetric
closure, so the resulting undirected graph is the same. -/
def moral_graph (g : NxDiGraph V) : NxGraph V :=
  { nodes := g.nodes,
    edges := g.edges ++ g.nodes.foldl (fun acc n =>
      let ps := g.predecessors n
      acc ++ ps.foldl (fun acc2 a =>
        acc2 ++ (ps.filter (fun b => decide (b ≠ a))).map (fun b => (a, b))) []) [] }

/-- Embedding of `set(nx.neighbors(graph, v))`: networkx raises
`NetworkXError` when `v` is not a node of the graph. -/
def neighborsE (g : NxGraph V) (v : V) : Except PyErr (List V) :=
  if v ∈ g.nodes then .ok (g.neighbors v) else .error .networkxError

/-- Embedding of `set.union(*[set(nx.neighbors(graph, x)) for x in s])`
over a set `s` of nodes: the comprehension raises `NetworkXError` when
some element is not a node of the graph, and the unbound-method call
`set.union()` raises `TypeError` when `s` is empty.  Both error kinds
are single-valued, so the iteration order of the Python set is
irrelevant to the result. -/
def unionNeighbors (g : NxGraph V) (s : List V) : Except PyErr (List V) :=
  if s = [] then .error .typeError
  else if s.all (fun v => decide (v ∈ g.nodes)) then .ok (nsBigUnion s g.neighbors)
  else .error .networkxError

/-- Embedding of `set.union(*[f(x) for x in l])` where `f` embeds an
`nx.descendants`- or `nx.ancestors`-style call that raises
`NetworkXError` on a node absent from `g`: the comprehension is
evaluated first (so the `NetworkXError` preempts), then `set.union()`
raises `TypeError` on an empty argument list. -/
def unionStarNodes (g : NxDiGraph V) (l : List V) (f : V → List V) :
    Except PyErr (List V) :=
  if ¬ l.all (fun v => decide (v ∈ g.nodes)) then .error .networkxError
  else if l.isEmpty then .error .typeError
  else .ok (nsBigUnion l f)

/-- Restriction of a directed graph to a node set (used by the embedded
d-separation oracle). -/
def NxDiGraph.restrict (g : NxDiGraph V) (s : List V) : NxDiGraph V :=
  { nodes := nsInter g.nodes s,
    edges := g.edges.filter (fun e => decide (e.1 ∈ s ∧ e.2 ∈ s)) }

/-- Embedding of `nx.d_separated(G, x, y, z)` on a DAG: restrict the
graph to the inclusive ancestors of `x ∪ y ∪ z`, moralise, delete `z`,
and test that no node of `x` is connected to a node of `y`.  This is the
ancestral-moral-graph algorithm that networkx implements by pruning
leaves outside `x ∪ y ∪ z`. -/
def d_separated (g : NxDiGraph V) (x y z : List V) : Bool :=
  let u := nsUnion (nsUnion (nsOf x) y) z
  let anc := nsBigUnion u (fun v => nsInsert v (g.ancestors v))
  let m := (moral_graph (g.restrict anc)).removeNodes z
  decide (∀ a ∈ x, ∀ b ∈ y, b ∉ m.componentOf a)

/-- Embedding of `CausalDAG.is_acyclic`: `not list(nx.simple_cycles(g))`,
i.e. no node can reach itself through at least one edge. -/
def is_acyclic (g : NxDiGraph V) : Bool :=
  decide (∀ v ∈ g.nodes, v ∉ g.reachFrom (g.successors v))

/-- Embedding of `CausalDAG.add_edge`: the edge (and any missing
endpoint) is inserted first; only afterwards is acyclicity checked and
`nx.HasACycle` raised.  The returned graph is the post-call state of the
mutated object, which persists even when the exception is raised. -/
def add_edge (g : NxDiGraph V) (u v : V) : NxDiGraph V × Except PyErr Unit :=
  let g' : NxDiGraph V :=
    { nodes := nsInsert u (nsInsert v g.nodes),
      edges := if (u, v) ∈ g.edges then g.edges else g.edges ++ [(u, v)] }
  if is_acyclic g' then (g', .ok ()) else (g', .error .hasACycle)

/-- Comparison of two values through the linear order. -/
def cmpV (a b : V) : Ordering :=
  if a < b then .lt else if b < a then .gt else .eq

/-- Lexicographic comparison of lists. -/
def cmpList {α : Type} (cmp : α → α → Ordering) : List α → List α → Ordering
  | [], [] => .eq
  | [], _ :: _ => .lt
  | _ :: _, [] => .gt
  | a :: as, b :: bs =>
    match cmp a b with
    | .eq => cmpList cmp as bs
    | o => o

/-- Ordered insertion keeping duplicates (used for the canonical form of
a multiset of yields). -/
def minsertByCmp {α : Type} (cmp : α → α → Ordering) (a : α) : List α → List α
  | [] => [a]
  | x :: xs =>
    match cmp a x with
    | .gt => x :: minsertByCmp cmp a xs
    | _ => a :: x :: xs

/-- Ordered insertion that drops an exact duplicate (used for the
canonical form of a set of run outcomes). -/
def insertByCmp {α : Type} (cmp : α → α → Ordering) (a : α) : List α → List α
  | [] => [a]
  | x :: xs =>
    match cmp a x with
    | .lt => a :: x :: xs
    | .eq => x :: xs
    | .gt => x :: insertByCmp cmp a xs

/-- Outcome of one run of the generator `list_all_min_sep` under a fixed
sequence of random branching choices: either a Python exception, or the
multiset of node sets yielded by the generator, represented canonically
as an ordered list (with multiplicity) of canonical sets.  The examined
properties compare yields as unordered collections, so the generator
order of the yields is deliberately quotiented away. -/
inductive RunRes (V : Type) where
  | err : PyErr → RunRes V
  | ok : List (List V) → RunRes V
deriving DecidableEq

/-- Index used to order error kinds. -/
def pyErrIdx : PyErr → Nat
  | .hasACycle => 0
  | .valueError => 1
  | .typeError => 2
  | .indexError => 3
  | .networkxError => 4

/-- Comparison of run outcomes (errors before yield lists). -/
def cmpRun : RunRes V → RunRes V → Ordering
  | .err a, .err b => cmpV (pyErrIdx a) (pyErrIdx b)
  | .err _, .ok _ => .lt
  | .ok _, .err _ => .gt
  | .ok m, .ok m' => cmpList (cmpList cmpV) m m'

/-- Canonical union of two sets of run outcomes. -/
def unionRuns (s t : List (RunRes V)) : List (RunRes V) :=
  t.foldl (fun acc r => insertByCmp cmpRun r acc) s

/-- Canonical sum of two multisets of yields. -/
def mergeYields (m m' : List (List V)) : List (List V) :=
  m'.foldl (fun acc y => minsertByCmp (cmpList cmpV) y acc) m

/-- Embedding of `close_separator(graph, treatment_node, outcome_node,
treatment_node_set)`: remove the union of the neighbours of the
treatment set, locate the connected component containing the outcome
node, and return the neighbourhood of that component in the original
graph minus the component; `ValueError` when no remaining component
contains the outcome node.  The `treatment_node` parameter of the Python
function only feeds its error message and is omitted. -/
def close_separator (graph : NxGraph V) (outcome_node : V)
    (treatment_node_set : List V) : Except PyErr (List V) := do
  let treatment_neighbours ← unionNeighbors graph treatment_node_set
  let components_graph := graph.removeNodes treatment_neighbours
  if outcome_node ∈ components_graph.nodes then
    let component := components_graph.componentOf outcome_node
    let nbrs ← unionNeighbors graph component
    return nsDiff nbrs component
  else throw .valueError

/-- Sequencing of the two recursive generator calls of
`list_all_min_sep` for one branching choice: the left branch is
exhausted first, so its exception preempts the right branch, and the
yields accumulate otherwise. -/
def combineRuns (ls rs : List (RunRes V)) : List (RunRes V) :=
  ls.foldl (fun acc lr =>
    match lr with
    | .err e => insertByCmp cmpRun (.err e) acc
    | .ok m => rs.foldl (fun acc2 rr =>
        insertByCmp cmpRun
          (match rr with
           | .err e => RunRes.err e
           | .ok m' => RunRes.ok (mergeYields m m')) acc2) acc) []

/-- Embedding of `list_all_min_sep(graph, treatment_node, outcome_node,
treatment_node_set, outcome_node_set)`.  The Python generator picks the
branching node with `random.sample`; the embedding returns the canonical
set of run outcomes reachable under every possible choice, so a
singleton result means the outcome is independent of the random
choices.  The `Nat` argument is recursion fuel; `none` is returned only
when the fuel is exhausted, which the theorems below rule out by
supplying enough fuel for their concrete inputs. -/
def list_all_min_sep (graph : NxGraph V) (treatment_node outcome_node : V)
    (treatment_node_set outcome_node_set : List V) :
    Nat → Option (List (RunRes V))
  | 0 => none
  | fuel + 1 =>
    match close_separator graph outcome_node treatment_node_set with
    | .error e => some [.err e]
    | .ok close_separator_set =>
      let components_graph := graph.removeNodes close_separator_set
      let tcc := components_graph.componentOf treatment_node
      if (nsInter tcc outcome_node_set).isEmpty then
        match unionNeighbors graph tcc with
        | .error e => some [.err e]
        | .ok nbrsU =>
          let treatment_node_set_neighbours := nsDiff nbrsU tcc
          let frontier := nsDiff treatment_node_set_neighbours outcome_node_set
          if frontier.isEmpty then some [.ok [treatment_node_set_neighbours]]
          else
            frontier.foldl (fun acc node => do
              let collected ← acc
              let ls ← list_all_min_sep graph treatment_node outcome_node
                (nsInsert node tcc) outcome_node_set fuel
              let rs ← list_all_min_sep graph treatment_node outcome_node
                tcc (nsInsert node outcome_node_set) fuel
              some (unionRuns collected (combineRuns ls rs))) (some [])
      else some [.ok []]

/-- Embedding of `CausalDAG.get_backdoor_graph`: delete every edge whose
source is a treatment. -/
def get_backdoor_graph (g : NxDiGraph V) (treatments : List V) : NxDiGraph V :=
  { nodes := g.nodes,
    edges := g.edges.filter (fun e => decide (e.1 ∉ treatments)) }

/-- Embedding of `CausalDAG.proper_causal_pathway`: descendants of the
treatments minus the treatments, intersected with ancestors of the
outcomes taken in the backdoor graph (both closures inclusive). -/
def proper_causal_pathway (g : NxDiGraph V) (treatments outcomes : List V) :
    Except PyErr (List V) := do
  let treatments_descendants ←
    unionStarNodes g treatments (fun t => nsInsert t (g.descendants t))
  let treatments_descendants_without_treatments :=
    nsDiff treatments_descendants treatments
  let backdoor_graph := get_backdoor_graph g treatments
  let outcome_ancestors ←
    unionStarNodes backdoor_graph outcomes
      (fun o => nsInsert o (backdoor_graph.ancestors o))
  return nsInter treatments_descendants_without_treatments outcome_ancestors

/-- Embedding of `CausalDAG.get_proper_backdoor_graph`: after checking
that every treatment and outcome is a node (`IndexError` otherwise),
delete every outgoing edge of a treatment whose head lies on a proper
causal pathway. -/
def get_proper_backdoor_graph (g : NxDiGraph V) (treatments outcomes : List V) :
    Except PyErr (NxDiGraph V) := do
  if ¬ (treatments ++ outcomes).all (fun v => decide (v ∈ g.nodes)) then
    throw .indexError
  else
    let pcp ← proper_causal_pathway g treatments outcomes
    let edges_to_remove :=
      g.edges.filter (fun e => decide (e.1 ∈ treatments ∧ e.2 ∈ pcp))
    return { nodes := g.nodes,
             edges := g.edges.filter (fun e => decide (e ∉ edges_to_remove)) }

/-- Embedding of `CausalDAG.get_ancestor_graph`: restrict the graph to
the inclusive ancestors of the treatments and outcomes. -/
def get_ancestor_graph (g : NxDiGraph V) (treatments outcomes : List V) :
    Except PyErr (NxDiGraph V) := do
  let treatment_ancestors ←
    unionStarNodes g treatments (fun t => nsInsert t (g.ancestors t))
  let outcome_ancestors ←
    unionStarNodes g outcomes (fun o => nsInsert o (g.ancestors o))
  let variables_to_keep := nsUnion treatment_ancestors outcome_ancestors
  return g.removeNodes (nsDiff g.nodes variables_to_keep)

/-- Embedding of `CausalDAG.get_indirect_graph`: delete every edge that
points directly from a treatment to an outcome. -/
def get_indirect_graph (g : NxDiGraph V) (treatments outcomes : List V) :
    NxDiGraph V :=
  { nodes := g.nodes,
    edges := g.edges.filter (fun e => decide (¬ (e.1 ∈ treatments ∧ e.2 ∈ outcomes))) }

/-- Embedding of `CausalDAG.constructive_backdoor_criterion`: condition
(1) is the code test `set(covariates) <= nodes - descendants(PCP)`,
condition (2) is d-separation in the supplied proper backdoor graph. -/
def constructive_backdoor_criterion (g pbg : NxDiGraph V)
    (treatments outcomes covariates : List V) : Except PyErr Bool := do
  let pcp ← proper_causal_pathway g treatments outcomes
  let descendents_of_proper_casual_paths ←
    unionStarNodes g pcp (fun p => nsInsert p (g.descendants p))
  if ¬ covariates.all
      (fun z => decide (z ∈ nsDiff g.nodes descendents_of_proper_casual_paths)) then
    return false
  else if ¬ d_separated pbg (nsOf treatments) (nsOf outcomes) (nsOf covariates) then
    return false
  else
    return true

/-- Loop body of `CausalDAG.adjustment_set_is_minimal`: remove each
variable of the adjustment set in turn and return `False` as soon as
the shrunken set still satisfies the constructive backdoor criterion. -/
def minimalityScan (g pbg : NxDiGraph V) (treatments outcomes : List V)
    (adjustment_set : List V) : List V → Except PyErr Bool
  | [] => .ok true
  | v :: rest => do
    let c ← constructive_backdoor_criterion g pbg treatments outcomes
      (nsDiff adjustment_set [v])
    if c then return false
    else minimalityScan g pbg treatments outcomes adjustment_set rest

/-- Embedding of `CausalDAG.adjustment_set_is_minimal` (the adjustment
set is a Python set, embedded as a canonical list): require the
constructive backdoor criterion for the given set (`ValueError`
otherwise), then test every one-element-smaller subset. -/
def adjustment_set_is_minimal (g : NxDiGraph V) (treatments outcomes : List V)
    (adjustment_set : List V) : Except PyErr Bool := do
  let pbg ← get_proper_backdoor_graph g treatments outcomes
  let c ← constructive_backdoor_criterion g pbg treatments outcomes adjustment_set
  if ¬ c then throw .valueError
  else minimalityScan g pbg treatments outcomes adjustment_set adjustment_set

/-- Undirected edges joining all unordered pairs of distinct elements of
`s` (the Python `combinations(s, 2)`); both orientations are included,
which yields the same undirected graph. -/
def unorderedPairs (s : List V) : List (V × V) :=
  s.foldl (fun acc a =>
    acc ++ (s.filter (fun b => decide (b ≠ a))).map (fun b => (a, b))) []

/-- Embedding of `CausalDAG.enumerate_minimal_adjustment_sets`: build
the proper backdoor graph, restrict to the ancestor graph, moralise,
attach the two synthetic anchor nodes, connect the anchor
neighbourhoods pairwise, and enumerate all minimal separators between
the anchors with `list_all_min_sep`, starting from the node sets
`{TREATMENT}` and `neighbors(OUTCOME) ∪ {OUTCOME}`.  The Python code
uses the fresh string labels `TREATMENT` and `OUTCOME` for the anchors;
node identifiers being opaque, the embedding takes the two anchor
labels as the parameters `tAnchor` and `oAnchor`. -/
def enumerate_minimal_adjustment_sets (g : NxDiGraph V)
    (treatments outcomes : List V) (tAnchor oAnchor : V) (fuel : Nat) :
    Except PyErr (Option (List (RunRes V))) := do
  let proper_backdoor_graph ← get_proper_backdoor_graph g treatments outcomes
  let ancestor_proper_backdoor_graph ←
    get_ancestor_graph proper_backdoor_graph treatments outcomes
  let moralised0 := moral_graph ancestor_proper_backdoor_graph
  let moralised1 := moralised0.addEdges
    (treatments.map (fun t => (tAnchor, t)) ++
     outcomes.map (fun o => (oAnchor, o)))
  let tn ← unionNeighbors moralised1 treatments
  let treatment_neighbours := nsDiff tn treatments
  let onb ← unionNeighbors moralised1 outcomes
  let outcome_neighbours := nsDiff onb outcomes
  let moralised2 := moralised1.addEdges
    (unorderedPairs treatment_neighbours ++ unorderedPairs outcome_neighbours)
  let oNbrs ← neighborsE moralised2 oAnchor
  let outcome_node_set := nsInsert oAnchor oNbrs
  return list_all_min_sep moralised2 tAnchor oAnchor [tAnchor] outcome_node_set fuel

/-- Embedding of `CausalDAG.direct_effect_adjustment_sets`: build the
indirect graph, restrict to the ancestor graph, moralise, attach the
anchor nodes, and enumerate minimal separators starting from the node
sets `set(treatments)` and `set(outcomes)`. -/
def direct_effect_adjustment_sets (g : NxDiGraph V)
    (treatments outcomes : List V) (tAnchor oAnchor : V) (fuel : Nat) :
    Except PyErr (Option (List (RunRes V))) := do
  let indirect_graph := get_indirect_graph g treatments outcomes
  let ancestor_graph ← get_ancestor_graph indirect_graph treatments outcomes
  let gam0 := moral_graph ancestor_graph
  let gam := gam0.addEdges
    (treatments.map (fun t => (tAnchor, t)) ++
     outcomes.map (fun o => (oAnchor, o)))
  return list_all_min_sep gam tAnchor oAnchor
    (nsOf treatments) (nsOf outcomes) fuel

/-- Pipeline described by the specification sentence for
`direct_effect_adjustment_sets`: the examined property reads it as the
whole `enumerate_minimal_adjustment_sets` pipeline with the indirect
graph substituted for the proper backdoor graph.  This definition
repeats the `enumerate_minimal_adjustment_sets` body verbatim with only
that substitution, to be compared against the actual
`direct_effect_adjustment_sets` code. -/
def claimedDirectEffectPipeline (g : NxDiGraph V)
    (treatments outcomes : List V) (tAnchor oAnchor : V) (fuel : Nat) :
    Except PyErr (Option (List (RunRes V))) := do
  let indirect_graph := get_indirect_graph g treatments outcomes
  let ancestor_graph ← get_ancestor_graph indirect_graph treatments outcomes
  let moralised0 := moral_graph ancestor_graph
  let moralised1 := moralised0.addEdges
    (treatments.map (fun t => (tAnchor, t)) ++
     outcomes.map (fun o => (oAnchor, o)))
  let tn ← unionNeighbors moralised1 treatments
  let treatment_neighbours := nsDiff tn treatments
  let onb ← unionNeighbors moralised1 outcomes
  let outcome_neighbours := nsDiff onb outcomes
  let moralised2 := moralised1.addEdges
    (unorderedPairs treatment_neighbours ++ unorderedPairs outcome_neighbours)
  let oNbrs ← neighborsE moralised2 oAnchor
  let outcome_node_set := nsInsert oAnchor oNbrs
  return list_all_min_sep moralised2 tAnchor oAnchor [tAnchor] outcome_node_set fuel

/-- Pipeline obtained from `enumerate_minimal_adjustment_sets` by (a)
substituting the indirect graph for the proper backdoor graph, (b)
deleting the pairwise neighbour-connection step, and (c) replacing the
initial anchor sets with `set(treatments)` and `set(outcomes)`.  These
are exactly the three differences that the counterexample below forces
on the specification sentence. -/
def amendedDirectEffectPipeline (g : NxDiGraph V)
    (treatments outcomes : List V) (tAnchor oAnchor : V) (fuel : Nat) :
    Except PyErr (Option (List (RunRes V))) := do
  let indirect_graph := get_indirect_graph g treatments outcomes
  let ancestor_graph ← get_ancestor_graph indirect_graph treatments outcomes
  let moralised0 := moral_graph ancestor_graph
  let moralised1 := moralised0.addEdges
    (treatments.map (fun t => (tAnchor, t)) ++
     outcomes.map (fun o => (oAnchor, o)))
  return list_all_min_sep moralised1 tAnchor oAnchor
    (nsOf treatments) (nsOf outcomes) fuel

/-- A conditional independence record `X ⫫ Y | Z` as produced by the
`ConditionalIndependence` class; an unconditional record carries
`Z = []`. -/
structure CondIndep (V : Type) where
  x : V
  y : V
  z : List V
deriving DecidableEq

/-- Embedding of Python `itertools.combinations(l, k)`: all `k`-element
sublists of `l` in the original element order, enumerated in the
lexicographic index order itertools uses. -/
def combinations {α : Type} : Nat → List α → List (List α)
  | 0, _ => [[]]
  | _ + 1, [] => []
  | k + 1, a :: as => (combinations k as).map (a :: ·) ++ combinations (k + 1) as

/-- All conditional independence records found at one adjustment-set
size: scan `combinations(nodes, k)`, append the direct predecessors of
`y` when the heuristic is `min_direct` (the Python `zs +=
tuple(self.graph.predecessors(y))`), and keep the conditioning sets
that d-separate `x` and `y`. -/
def validZs (g : NxDiGraph V) (heuristic : String) (x y : V)
    (nodesList : List V) (k : Nat) : List (CondIndep V) :=
  (combinations k nodesList).filterMap (fun zs =>
    let zs_set := nsOf (zs ++
      (if heuristic = "min_direct" then g.predecessors y else []))
    if d_separated g [x] [y] zs_set then some ⟨x, y, zs_set⟩ else none)

/-- Size loop of `list_conditional_independence_relationships`: walk the
adjustment-set sizes in order, appending every record found at each
size; the `found` flag plays the role of the Python
`current_adjustment_set_size < inf` test, and any heuristic other than
`all` breaks out of the loop at the end of the first size that produced
a record. -/
def sizeLoop (heuristic : String) (valid : Nat → List (CondIndep V)) :
    List Nat → Bool → List (CondIndep V)
  | [], _ => []
  | k :: rest, found =>
    let v := valid k
    let found' := found || !v.isEmpty
    v ++ (if heuristic ≠ "all" ∧ found' then []
          else sizeLoop heuristic valid rest found')

/-- Search performed for a single node pair `(x, y)`: ascending sizes
`1, …, n` in general, and the Python `range(len(nodes) + 1, 1, -1)`,
i.e. descending sizes `n + 1, …, 2`, for the `maximal` heuristic. -/
def ciForPair (g : NxDiGraph V) (heuristic : String) (x y : V)
    (nodesList : List V) : List (CondIndep V) :=
  let n := nodesList.length
  let sizes := if heuristic = "maximal" then (List.range' 2 n).reverse
               else List.range' 1 n
  sizeLoop heuristic (validZs g heuristic x y nodesList) sizes false

/-- Embedding of
`CausalDAG.list_conditional_independence_relationships`: `None` when
the graph has fewer than two nodes, otherwise for every unordered node
pair the unconditional d-separation record followed by the records of
the size search. -/
def list_conditional_independence_relationships (g : NxDiGraph V)
    (heuristic : String) : Option (List (CondIndep V)) :=
  if g.nodes.length < 2 then none
  else
    some ((combinations 2 g.nodes).flatMap (fun p =>
      match p with
      | [x, y] =>
        let nodes := g.nodes.filter (fun v => decide (v ≠ x ∧ v ≠ y))
        (if d_separated g [x] [y] [] then [CondIndep.mk x y []] else []) ++
          ciForPair g heuristic x y nodes
      | _ => []))

/-- Claim-side reading of the stopping rule of the size search: the
first size whose scan finds at least one valid conditioning set
contributes all of its records, and nothing else is recorded. -/
def firstFound (sizes : List Nat) (valid : Nat → List (CondIndep V)) :
    List (CondIndep V) :=
  match sizes.find? (fun k => !(valid k).isEmpty) with
  | some k => valid k
  | none => []

/-- Membership in an ordered insertion. -/
theorem mem_nsInsert {a b : V} {l : List V} :
    b ∈ nsInsert a l ↔ b = a ∨ b ∈ l := by
  induction l with
  | nil => simp [nsInsert]
  | cons x xs ih =>
    simp only [nsInsert]
    split_ifs with h1 h2
    · simp [List.mem_cons]
    · subst h2
      simp only [List.mem_cons]
      tauto
    · simp only [List.mem_cons, ih]
      tauto

/-- Membership in a fold of ordered insertions. -/
theorem mem_foldl_nsInsert {l : List V} :
    ∀ {init : List V} {b : V},
      b ∈ l.foldl (fun acc v => nsInsert v acc) init ↔ b ∈ init ∨ b ∈ l := by
  induction l with
  | nil => simp
  | cons x xs ih =>
    intro init b
    simp only [List.foldl_cons]
    rw [ih]
    simp only [mem_nsInsert, List.mem_cons]
    tauto

/-- Membership in a set union. -/
theorem mem_nsUnion {s t : List V} {b : V} :
    b ∈ nsUnion s t ↔ b ∈ s ∨ b ∈ t :=
  mem_foldl_nsInsert

/-- Membership in the canonical image of a list. -/
theorem mem_nsOf {l : List V} {b : V} : b ∈ nsOf l ↔ b ∈ l := by
  unfold nsOf
  rw [mem_foldl_nsInsert]
  simp

/-- Membership in a fold of unions of images. -/
theorem mem_foldl_nsUnion {f : V → List V} {s : List V} :
    ∀ {init : List V} {b : V},
      b ∈ s.foldl (fun acc v => nsUnion acc (f v)) init ↔
        b ∈ init ∨ ∃ v ∈ s, b ∈ f v := by
  induction s with
  | nil => simp
  | cons x xs ih =>
    intro init b
    simp only [List.foldl_cons]
    rw [ih, mem_nsUnion]
    simp only [List.mem_cons]
    constructor
    · rintro (⟨h | h⟩ | ⟨v, hv, hb⟩)
      · exact Or.inl h
      · exact Or.inr ⟨x, Or.inl rfl, h⟩
      · exact Or.inr ⟨v, Or.inr hv, hb⟩
    · rintro (h | ⟨v, hv | hv, hb⟩)
      · exact Or.inl (Or.inl h)
      · exact Or.inl (Or.inr (hv ▸ hb))
      · exact Or.inr ⟨v, hv, hb⟩

/-- Membership in a big union. -/
theorem mem_nsBigUnion {s : List V} {f : V → List V} {b : V} :
    b ∈ nsBigUnion s f ↔ ∃ v ∈ s, b ∈ f v := by
  unfold nsBigUnion
  rw [mem_foldl_nsUnion]
  simp

/-- Membership in a set difference. -/
theorem mem_nsDiff {s t : List V} {b : V} :
    b ∈ nsDiff s t ↔ b ∈ s ∧ b ∉ t := by
  simp [nsDiff, List.mem_filter]

/-- Membership in a set intersection. -/
theorem mem_nsInter {s t : List V} {b : V} :
    b ∈ nsInter s t ↔ b ∈ s ∧ b ∈ t := by
  simp [nsInter, List.mem_filter]

/-- A predicate preserved by the step function is preserved by the
fixpoint iteration. -/
theorem iterFix_pred {P : List V → Prop} {f : List V → List V}
    (hf : ∀ t, P t → P (f t)) :
    ∀ n s, P s → P (iterFix f n s) := by
  intro n
  induction n with
  | zero => intro s hs; simpa [iterFix]
  | succ n ih =>
    intro s hs
    simp only [iterFix]
    split
    · exact hs
    · exact ih _ (hf _ hs)

/-- An expanding step function keeps every seed element in the fixpoint
iteration. -/
theorem subset_iterFix {f : List V → List V} (hf : ∀ t, ∀ b ∈ t, b ∈ f t) :
    ∀ n s b, b ∈ s → b ∈ iterFix f n s := by
  intro n
  induction n with
  | zero => intro s b hb; simpa [iterFix]
  | succ n ih =>
    intro s b hb
    simp only [iterFix]
    split
    · exact hb
    · exact ih _ _ (hf _ _ hb)

/-- Undirected test graph `a-2, a-3, 2-4, 3-5, 3-4, 4-b, 5-b` of the
separator scenarios, with the node renaming `a = 1, 2 = 2, 3 = 3,
4 = 4, 5 = 5, b = 6`. -/
def sepExampleGraph : NxGraph Nat :=
  { nodes := [1, 2, 3, 4, 5, 6],
    edges := [(1, 2), (1, 3), (2, 4), (3, 5), (3, 4), (4, 6), (5, 6)] }

/-- Undirected graph with two disjoint length-two paths from `t` to
`o`: `t-p, p-o, t-q, q-o` with the renaming `t = 1, p = 2, q = 3,
o = 4`.  Its unique minimal `t`-`o` separator is `{p, q}`. -/
def sepCounterGraph : NxGraph Nat :=
  { nodes := [1, 2, 3, 4],
    edges := [(1, 2), (2, 4), (1, 3), (3, 4)] }

/-- DAG of the first identification scenario `X1→X2, X2→V, X2→D1,
X2→D2, D1→Y, D1→D2, Y→D3, Z→X2, Z→Y`, with the node renaming
`X1 = 1, X2 = 2, V = 3, D1 = 4, D2 = 5, Y = 6, D3 = 7, Z = 8`. -/
def scenarioOneDAG : NxDiGraph Nat :=
  { nodes := [1, 2, 3, 4, 5, 6, 7, 8],
    edges := [(1, 2), (2, 3), (2, 4), (2, 5), (4, 6), (4, 5), (6, 7),
              (8, 2), (8, 6)] }

/-- Proper backdoor graph of the first scenario for treatments
`{X1, X2}` and outcomes `{Y}`: the edge `X2→D1`, i.e. `(2, 4)`, is
removed and everything else is kept. -/
def scenarioOnePBG : NxDiGraph Nat :=
  { nodes := [1, 2, 3, 4, 5, 6, 7, 8],
    edges := [(1, 2), (2, 3), (2, 5), (4, 6), (4, 5), (6, 7),
              (8, 2), (8, 6)] }

/-- M-bias DAG `X1→X2, X2→V, Z1→X2, Z1→Z2, Z2→Z3, Z3→Y, D1→Y, D1→D2,
Y→D3`, with the node renaming `X1 = 1, X2 = 2, V = 3, D1 = 4, D2 = 5,
Y = 6, D3 = 7, Z1 = 11, Z2 = 12, Z3 = 13`. -/
def mbiasDAG : NxDiGraph Nat :=
  { nodes := [1, 2, 3, 4, 5, 6, 7, 11, 12, 13],
    edges := [(1, 2), (2, 3), (11, 2), (11, 12), (12, 13), (13, 6),
              (4, 6), (4, 5), (6, 7)] }

/-- Confounded triangle `Z→X, Z→Y, X→Y` with the renaming `X = 1,
Y = 2, Z = 3`; used to separate the two direct-effect pipelines. -/
def triangleDAG : NxDiGraph Nat :=
  { nodes := [1, 2, 3],
    edges := [(3, 1), (3, 2), (1, 2)] }

/-- Two isolated nodes `X = 1` and `Y = 2` (no edges). -/
def isolatedPairDAG : NxDiGraph Nat :=
  { nodes := [1, 2], edges := [] }

/-- Single edge `A = 1 → B = 2`. -/
def singleEdgeDAG : NxDiGraph Nat :=
  { nodes := [1, 2], edges := [(1, 2)] }

/-- Chain DAG `X→Z→Y` with the renaming `X = 1, Z = 2, Y = 3`. -/
def chainDAG : NxDiGraph Nat :=
  { nodes := [1, 2, 3], edges := [(1, 2), (2, 3)] }

/-- Graph with one node and no edges. -/
def singleNodeDAG : NxDiGraph Nat :=
  { nodes := [1], edges := [] }

/-- C1: counterexample.  The claim quantifies over arbitrary disjoint
initial sets `Xs ⊇ {t}` and `Ys ⊇ {o}`.  On the two-path graph
`sepCounterGraph` with `Xs = {t} = {1}` and `Ys = {p, o} = {2, 4}`, the
set `{p, q} = {2, 3}` is a minimal `t`-`o` separator (removing it
disconnects `1` from `4` while no proper subset does), yet under every
possible branching choice the recursion raises the `ValueError` of
`close_separator` instead of yielding it: the run-outcome set is exactly
`{ValueError}`, so the claimed enumeration property fails. -/
theorem C1_counterexample :
    list_all_min_sep sepCounterGraph 1 4 [1] [2, 4] 10 =
      some [RunRes.err PyErr.valueError] ∧
    4 ∉ (sepCounterGraph.removeNodes [2, 3]).componentOf 1 ∧
    4 ∈ (sepCounterGraph.removeNodes [2]).componentOf 1 ∧
    4 ∈ (sepCounterGraph.removeNodes [3]).componentOf 1 ∧
    4 ∈ (sepCounterGraph.removeNodes []).componentOf 1 := by
  refine ⟨by decide, by decide, by decide, by decide, by decide⟩

/-- C1: amended claim, proved.  On the scenario graph with the anchors
of the callers, `Xs = {a}` and `Ys = neighbors(b) ∪ {b} = {4, 5, 6}`,
every possible sequence of random branching choices terminates without
error and yields exactly the three minimal separators `{2,3}`, `{3,4}`
and `{4,5}`, each exactly once (the run-outcome set is a singleton whose
yield multiset is exactly those three sets). -/
theorem C1_theorem :
    nsInsert 6 (sepExampleGraph.neighbors 6) = [4, 5, 6] ∧
    list_all_min_sep sepExampleGraph 1 6 [1] [4, 5, 6] 20 =
      some [RunRes.ok [[2, 3], [3, 4], [4, 5]]] := by
  refine ⟨by decide, by decide⟩

/-- C2: on the first scenario DAG, `enumerate_minimal_adjustment_sets`
returns the one-element collection `[{Z}]` under every random branching
choice, and on the M-bias DAG it returns exactly the three singletons
`{Z1}, {Z2}, {Z3}` (the run-outcome sets are singletons, so the result
is independent of the random choices; yields are compared as unordered
collections). -/
theorem C2_theorem :
    enumerate_minimal_adjustment_sets scenarioOneDAG [1, 2] [6] 100 101 40 =
      .ok (some [RunRes.ok [[8]]]) ∧
    enumerate_minimal_adjustment_sets mbiasDAG [1, 2] [6] 100 101 40 =
      .ok (some [RunRes.ok [[11], [12], [13]]]) := by
  refine ⟨by decide, by decide⟩

/-- C4: on the DAG with single edge `A→B`, inserting `B→A` raises
`HasACycle` but the post-call state keeps the inserted edge: the edge
list after the failed call is `[(A,B), (B,A)]`, not the prior
`[(A,B)]`, and the graph is left cyclic.  A non-cycle-inducing insert
succeeds and keeps the graph acyclic.  This contradicts the claimed
rollback (the code checks acyclicity only after mutating and never
undoes the mutation), supporting the code-bug verdict. -/
theorem C4_theorem :
    (add_edge singleEdgeDAG 2 1).2 = .error PyErr.hasACycle ∧
    (add_edge singleEdgeDAG 2 1).1.edges = [(1, 2), (2, 1)] ∧
    (add_edge singleEdgeDAG 2 1).1.nodes = [1, 2] ∧
    is_acyclic (add_edge singleEdgeDAG 2 1).1 = false ∧
    (add_edge singleEdgeDAG 2 3).2 = .ok () ∧
    is_acyclic (add_edge singleEdgeDAG 2 3).1 = true := by
  refine ⟨by decide, by decide, by decide, by decide, by decide, by decide⟩

/-- C6: counterexample.  On the confounded triangle `Z→X, Z→Y, X→Y`
with treatment `X` and outcome `Y`, `direct_effect_adjustment_sets`
yields the two sets `{Y}` and `{Z}`, while the pipeline described by
the claim (namely `enumerate_minimal_adjustment_sets` with the
indirect graph substituted for the proper backdoor graph, keeping the
neighbour-connection step and the anchor sets `{TREATMENT}` and
`neighbors(OUTCOME) ∪ {OUTCOME}`) yields exactly `{Z}`.  Both outcomes
are choice-independent and differ, refuting the claimed equality of
the pipelines. -/
theorem C6_counterexample :
    direct_effect_adjustment_sets triangleDAG [1] [2] 100 101 20 =
      .ok (some [RunRes.ok [[2], [3]]]) ∧
    claimedDirectEffectPipeline triangleDAG [1] [2] 100 101 20 =
      .ok (some [RunRes.ok [[3]]]) ∧
    direct_effect_adjustment_sets triangleDAG [1] [2] 100 101 20 ≠
      claimedDirectEffectPipeline triangleDAG [1] [2] 100 101 20 := by
  refine ⟨by decide, by decide, by decide⟩

/-- C6: amended claim, proved.  `direct_effect_adjustment_sets` equals
the `enumerate_minimal_adjustment_sets` pipeline with (a) the indirect
graph substituted for the proper backdoor graph, (b) the pairwise
neighbour-connection step omitted, and (c) the initial anchor sets
`set(treatments)` and `set(outcomes)` instead of `{TREATMENT}` and
`neighbors(OUTCOME) ∪ {OUTCOME}`. -/
theorem C6_theorem {V : Type} [LinearOrder V] (g : NxDiGraph V)
    (treatments outcomes : List V) (tAnchor oAnchor : V) (fuel : Nat) :
    direct_effect_adjustment_sets g treatments outcomes tAnchor oAnchor fuel =
      amendedDirectEffectPipeline g treatments outcomes tAnchor oAnchor fuel := by
  rfl

/-- C10: on every graph with fewer than two nodes,
`list_conditional_independence_relationships` returns `None` rather
than an empty list, whatever the search heuristic. -/
theorem C10_theorem {V : Type} [LinearOrder V] (g : NxDiGraph V)
    (heuristic : String) (h : g.nodes.length < 2) :
    list_conditional_independence_relationships g heuristic = none := by
  unfold list_conditional_independence_relationships
  rw [if_pos h]

/-- C10: witness discharging the hypothesis on the one-node graph. -/
theorem C10_witness :
    singleNodeDAG.nodes.length < 2 ∧
    list_conditional_independence_relationships singleNodeDAG "minimal" = none :=
  ⟨by decide, C10_theorem singleNodeDAG "minimal" (by decide)⟩

/-- Reduction of bind on an ok value. -/
theorem exceptBind_ok {ε α β : Type} (a : α) (f : α → Except ε β) :
    (Except.ok a >>= f : Except ε β) = f a := rfl

/-- Reduction of bind on an error value. -/
theorem exceptBind_error {ε α β : Type} (e : ε) (f : α → Except ε β) :
    (Except.error e >>= f : Except ε β) = .error e := rfl

/-- A list-of-decides `all` equals one decide of the bounded universal. -/
theorem all_decide_eq_decide {α : Type} (l : List α) (p : α → Prop)
    [DecidablePred p] :
    (l.all fun a => decide (p a)) = decide (∀ a ∈ l, p a) := by
  by_cases h : ∀ a ∈ l, p a
  · rw [decide_eq_true h, List.all_eq_true]
    intro a ha
    exact decide_eq_true (h a ha)
  · rw [decide_eq_false h]
    rcases not_forall.mp h with ⟨a, ha⟩
    rcases Classical.not_imp.mp ha with ⟨hmem, hnp⟩
    exact List.all_eq_false.mpr ⟨a, hmem, by simp [hnp]⟩

/-- Successful evaluation of `unionStarNodes` when the iterated list is
non-empty and all of its elements are nodes of the graph. -/
theorem unionStarNodes_ok {g : NxDiGraph V} {l : List V} {f : V → List V}
    (hne : l ≠ []) (hin : ∀ v ∈ l, v ∈ g.nodes) :
    unionStarNodes g l f = .ok (nsBigUnion l f) := by
  unfold unionStarNodes
  have hall : (l.all fun v => decide (v ∈ g.nodes)) = true := by
    rw [List.all_eq_true]
    intro v hv
    exact decide_eq_true (hin v hv)
  have hne' : l.isEmpty = false := by
    cases l with
    | nil => exact absurd rfl hne
    | cons a as => rfl
  rw [if_neg (by simp [hall]), if_neg (by simp [hne'])]

/-- C3: amended claim, proved.  Whenever the proper causal pathway of
`(g, X, Y)` evaluates to a non-empty node set `P` (the amendment: on an
empty pathway the code instead raises `TypeError` from an empty
`set.union()`), the criterion returns exactly the boolean conjunction
of the two claimed conditions: (1) no covariate lies in the inclusive
descendants of any node of `P`, and (2) the covariates d-separate the
treatments from the outcomes in the supplied proper backdoor graph. -/
theorem C3_theorem {V : Type} [LinearOrder V] (g pbg : NxDiGraph V)
    (X Y Z P : List V)
    (hpcp : proper_causal_pathway g X Y = .ok P)
    (hPne : P ≠ [])
    (hPin : ∀ p ∈ P, p ∈ g.nodes)
    (hZ : ∀ z ∈ Z, z ∈ g.nodes) :
    constructive_backdoor_criterion g pbg X Y Z =
      .ok (decide (∀ z ∈ Z, ∀ p ∈ P, z ∉ nsInsert p (g.descendants p)) &&
           d_separated pbg (nsOf X) (nsOf Y) (nsOf Z)) := by
  unfold constructive_backdoor_criterion
  rw [hpcp, exceptBind_ok, unionStarNodes_ok hPne hPin, exceptBind_ok]
  have hcond : (Z.all fun z =>
      decide (z ∈ nsDiff g.nodes
        (nsBigUnion P fun p => nsInsert p (g.descendants p)))) =
      decide (∀ z ∈ Z, ∀ p ∈ P, z ∉ nsInsert p (g.descendants p)) := by
    rw [all_decide_eq_decide, decide_eq_decide]
    simp only [mem_nsDiff, mem_nsBigUnion]
    constructor
    · intro h z hz p hp hmem
      exact (h z hz).2 ⟨p, hp, hmem⟩
    · intro h z hz
      exact ⟨hZ z hz, fun ⟨p, hp, hmem⟩ => h z hz p hp hmem⟩
  rw [hcond]
  by_cases h1 : decide (∀ z ∈ Z, ∀ p ∈ P, z ∉ nsInsert p (g.descendants p)) = true
  · rw [h1]
    by_cases h2 : d_separated pbg (nsOf X) (nsOf Y) (nsOf Z) = true
    · rw [if_neg (by simp [h1]), if_neg (by simp [h2]), h2]
      rfl
    · have h2' : d_separated pbg (nsOf X) (nsOf Y) (nsOf Z) = false :=
        Bool.eq_false_iff.mpr h2
      rw [if_neg (by simp [h1]), if_pos (by simp [h2']), h2']
      rfl
  · have h1' : decide (∀ z ∈ Z, ∀ p ∈ P, z ∉ nsInsert p (g.descendants p)) = false :=
      Bool.eq_false_iff.mpr h1
    rw [h1', if_pos (by simp [h1'])]
    rfl

/-- C3: counterexample.  On the two-node edgeless DAG with treatment
`X = 1` and outcome `Y = 2`, the proper backdoor graph is the graph
itself, both claimed conditions hold for the empty covariate set (no
covariates, and the empty set d-separates `X` from `Y`), so the claim
predicts `True`; but the code raises `TypeError` (the proper causal
pathway is empty, so `set.union(*[])` is called with no arguments) and
returns no boolean at all. -/
theorem C3_counterexample :
    get_proper_backdoor_graph isolatedPairDAG [1] [2] = .ok isolatedPairDAG ∧
    constructive_backdoor_criterion isolatedPairDAG isolatedPairDAG [1] [2] [] =
      .error PyErr.typeError ∧
    d_separated isolatedPairDAG [1] [2] [] = true := by
  refine ⟨by decide, by decide, by decide⟩

/-- C3: witness instantiating the amended theorem on the first scenario
DAG with its proper backdoor graph and covariate set `{Z}`. -/
theorem C3_witness :
    proper_causal_pathway scenarioOneDAG [1, 2] [6] = .ok [4, 6] ∧
    ([4, 6] : List Nat) ≠ [] ∧
    (∀ p ∈ ([4, 6] : List Nat), p ∈ scenarioOneDAG.nodes) ∧
    (∀ z ∈ ([8] : List Nat), z ∈ scenarioOneDAG.nodes) ∧
    constructive_backdoor_criterion scenarioOneDAG scenarioOnePBG [1, 2] [6] [8] =
      .ok (decide (∀ z ∈ ([8] : List Nat), ∀ p ∈ ([4, 6] : List Nat),
             z ∉ nsInsert p (scenarioOneDAG.descendants p)) &&
           d_separated scenarioOnePBG (nsOf [1, 2]) (nsOf [6]) (nsOf [8])) :=
  ⟨by decide, by decide, by decide, by decide,
   C3_theorem scenarioOneDAG scenarioOnePBG [1, 2] [6] [8] [4, 6]
     (by decide) (by decide) (by decide) (by decide)⟩

/-- The error behaviour of the criterion does not depend on the
covariates: if it returns a boolean for one covariate set it returns a
boolean for every covariate set (its only failure points are the proper
causal pathway and the descendant union, neither of which reads the
covariates). -/
theorem criterion_cov_indep {g pbg : NxDiGraph V} {X Y Z : List V} {b : Bool}
    (h : constructive_backdoor_criterion g pbg X Y Z = .ok b) (Z' : List V) :
    ∃ b', constructive_backdoor_criterion g pbg X Y Z' = .ok b' := by
  unfold constructive_backdoor_criterion at h ⊢
  cases hpcp : proper_causal_pathway g X Y with
  | error e =>
    rw [hpcp, exceptBind_error] at h
    simp at h
  | ok P =>
    rw [hpcp, exceptBind_ok] at h
    rw [exceptBind_ok]
    cases hD : unionStarNodes g P (fun p => nsInsert p (g.descendants p)) with
    | error e =>
      rw [hD, exceptBind_error] at h
      simp at h
    | ok D =>
      rw [exceptBind_ok]
      split_ifs
      all_goals exact ⟨_, rfl⟩

/-- Characterisation of the minimality scan: given that the criterion
evaluates to a boolean on the full adjustment set, the scan over any
element list returns `False` exactly when some scanned element can be
removed with the criterion still holding. -/
theorem minimalityScan_eq {g pbg : NxDiGraph V} {X Y Z : List V} {b : Bool}
    (hok : constructive_backdoor_criterion g pbg X Y Z = .ok b) :
    ∀ l : List V,
      minimalityScan g pbg X Y Z l =
        .ok (decide (¬ ∃ v ∈ l,
          constructive_backdoor_criterion g pbg X Y (nsDiff Z [v]) = .ok true)) := by
  intro l
  induction l with
  | nil => simp [minimalityScan]
  | cons v rest ih =>
    unfold minimalityScan
    obtain ⟨b', hb'⟩ := criterion_cov_indep hok (nsDiff Z [v])
    rw [hb', exceptBind_ok]
    cases b' with
    | true =>
      have hex : ∃ w ∈ v :: rest,
          constructive_backdoor_criterion g pbg X Y (nsDiff Z [w]) = .ok true :=
        ⟨v, List.mem_cons_self v rest, hb'⟩
      rw [if_pos rfl, decide_eq_false (not_not_intro hex)]
      rfl
    | false =>
      rw [if_neg (by simp), ih]
      congr 1
      rw [decide_eq_decide]
      constructor
      · intro hn hex
        rcases hex with ⟨w, hw, hcrit⟩
        rcases List.mem_cons.mp hw with hw | hw
        · subst hw
          rw [hb'] at hcrit
          cases hcrit
        · exact hn ⟨w, hw, hcrit⟩
      · intro hn hex
        rcases hex with ⟨w, hw, hcrit⟩
        exact hn ⟨w, List.mem_cons_of_mem v hw, hcrit⟩

/-- C5: whenever the criterion evaluates to a boolean `b` on the
adjustment set, `adjustment_set_is_minimal` raises `ValueError` if
`b = False` (the invalid-adjustment error of the claim) and otherwise
returns `True` exactly when no one-element-smaller subset still
satisfies the criterion (`False` when some `Z \ {z}` does). -/
theorem C5_theorem {V : Type} [LinearOrder V] (g pbg : NxDiGraph V)
    (X Y Z : List V) (b : Bool)
    (hpbg : get_proper_backdoor_graph g X Y = .ok pbg)
    (hc : constructive_backdoor_criterion g pbg X Y Z = .ok b) :
    adjustment_set_is_minimal g X Y Z =
      if b then
        .ok (decide (¬ ∃ z ∈ Z,
          constructive_backdoor_criterion g pbg X Y (nsDiff Z [z]) = .ok true))
      else .error PyErr.valueError := by
  unfold adjustment_set_is_minimal
  rw [hpbg, exceptBind_ok, hc, exceptBind_ok]
  cases b with
  | false =>
    rw [if_pos (by simp)]
    rfl
  | true =>
    rw [if_neg (by simp), if_pos rfl]
    exact minimalityScan_eq hc Z

/-- C5: witness instantiating the theorem on the first scenario DAG
with the valid adjustment set `{Z}` (the criterion holds, so the
minimality verdict is the claimed subset check). -/
theorem C5_witness :
    get_proper_backdoor_graph scenarioOneDAG [1, 2] [6] = .ok scenarioOnePBG ∧
    constructive_backdoor_criterion scenarioOneDAG scenarioOnePBG [1, 2] [6] [8] =
      .ok true ∧
    adjustment_set_is_minimal scenarioOneDAG [1, 2] [6] [8] =
      (if true then
        .ok (decide (¬ ∃ z ∈ ([8] : List Nat),
          constructive_backdoor_criterion scenarioOneDAG scenarioOnePBG [1, 2] [6]
            (nsDiff [8] [z]) = .ok true))
       else .error PyErr.valueError) :=
  ⟨by decide, by decide,
   C5_theorem scenarioOneDAG scenarioOnePBG [1, 2] [6] [8] true
     (by decide) (by decide)⟩

/-- C7: general part and the concrete scenario in one statement.  The
general part: whenever the treatments and outcomes are nodes of the DAG
and the proper causal pathway evaluates to `P`, the proper backdoor
graph keeps every node and keeps exactly the edges `(u, v)` for which
it is not the case that `u` is a treatment and `v` lies on `P` (so it
removes exactly the first edges of proper causal paths).  The concrete
part: on the first scenario DAG with treatments `{X1, X2}` and
outcomes `{Y}`, exactly the edge `X2→D1`, i.e. `(2, 4)`, is dropped. -/
theorem C7_theorem :
    (∀ (V : Type) [LinearOrder V] (g : NxDiGraph V) (X Y P : List V),
      (∀ v ∈ X ++ Y, v ∈ g.nodes) →
      proper_causal_pathway g X Y = .ok P →
      get_proper_backdoor_graph g X Y =
        .ok { nodes := g.nodes,
              edges := g.edges.filter
                (fun e => decide (¬ (e.1 ∈ X ∧ e.2 ∈ P))) }) ∧
    get_proper_backdoor_graph scenarioOneDAG [1, 2] [6] = .ok scenarioOnePBG := by
  constructor
  · intro V _ g X Y P hin hpcp
    unfold get_proper_backdoor_graph
    have hall : ((X ++ Y).all fun v => decide (v ∈ g.nodes)) = true := by
      rw [List.all_eq_true]
      intro v hv
      exact decide_eq_true (hin v hv)
    rw [if_neg (by simp [hall]), hpcp, exceptBind_ok]
    dsimp only
    have hfil : (g.edges.filter fun e =>
        decide (e ∉ g.edges.filter fun e => decide (e.1 ∈ X ∧ e.2 ∈ P))) =
        g.edges.filter (fun e => decide (¬ (e.1 ∈ X ∧ e.2 ∈ P))) := by
      apply List.filter_congr
      intro e he
      rw [decide_eq_decide, List.mem_filter]
      simp [he]
    rw [hfil]
    rfl
  · decide

/-- C7: witness instantiating the general part on the first scenario
DAG and checking it agrees with the explicitly computed proper
backdoor graph. -/
theorem C7_witness :
    (∀ v ∈ ([1, 2] ++ [6] : List Nat), v ∈ scenarioOneDAG.nodes) ∧
    proper_causal_pathway scenarioOneDAG [1, 2] [6] = .ok [4, 6] ∧
    get_proper_backdoor_graph scenarioOneDAG [1, 2] [6] =
      .ok { nodes := scenarioOneDAG.nodes,
            edges := scenarioOneDAG.edges.filter
              (fun e => decide (¬ (e.1 ∈ ([1, 2] : List Nat) ∧
                e.2 ∈ ([4, 6] : List Nat)))) } :=
  ⟨by decide, by decide,
   C7_theorem.1 Nat scenarioOneDAG [1, 2] [6] [4, 6] (by decide) (by decide)⟩

/-- Successful evaluation of `unionNeighbors` when the iterated set is
non-empty and contained in the node set. -/
theorem unionNeighbors_ok {g : NxGraph V} {s : List V}
    (hne : s ≠ []) (hin : ∀ v ∈ s, v ∈ g.nodes) :
    unionNeighbors g s = .ok (nsBigUnion s g.neighbors) := by
  unfold unionNeighbors
  have hall : (s.all fun v => decide (v ∈ g.nodes)) = true := by
    rw [List.all_eq_true]
    intro v hv
    exact decide_eq_true (hin v hv)
  rw [if_neg hne, if_pos hall]

/-- Every element of a connected component is a node of the ambient
undirected graph. -/
theorem componentOf_subset {g : NxGraph V} {v : V} :
    ∀ b ∈ g.componentOf v, b ∈ g.nodes := by
  unfold NxGraph.componentOf
  split_ifs with hv
  · intro b hb
    refine iterFix_pred (P := fun t => ∀ c ∈ t, c ∈ g.nodes) ?_ _ _ ?_ b hb
    · intro t ht c hc
      rcases mem_nsUnion.mp hc with hc | hc
      · exact ht c hc
      · rcases mem_nsBigUnion.mp hc with ⟨w, _, hw⟩
        exact (List.mem_filter.mp hw).1
    · intro c hc
      rcases List.mem_singleton.mp hc with rfl
      exact hv
  · intro b hb
    cases hb

/-- The sought node belongs to its own connected component whenever it
is a node of the graph. -/
theorem mem_componentOf {g : NxGraph V} {v : V} (hv : v ∈ g.nodes) :
    v ∈ g.componentOf v := by
  unfold NxGraph.componentOf
  rw [if_pos hv]
  refine subset_iterFix ?_ _ _ _ (List.mem_singleton.mpr rfl)
  intro t b hb
  exact mem_nsUnion.mpr (Or.inl hb)

/-- C8: general part and the concrete scenario in one statement.  Let
`N` be the union of the neighbourhoods of the (non-empty, node-valued)
treatment set `Xs` and let `C` be the connected component of the
outcome node `o` in the graph with `N` removed.  If `o` survives the
removal, `close_separator` returns the neighbourhood of `C` in the
original graph minus `C`; otherwise it raises the `ValueError` domain
error.  Concretely, on the scenario graph with `Xs = {a}` it returns
`{2, 3}`. -/
theorem C8_theorem :
    (∀ (V : Type) [LinearOrder V] (graph : NxGraph V) (o : V) (Xs : List V),
      Xs ≠ [] → (∀ x ∈ Xs, x ∈ graph.nodes) →
      ((o ∈ (graph.removeNodes (nsBigUnion Xs graph.neighbors)).nodes →
        close_separator graph o Xs =
          .ok (nsDiff
            (nsBigUnion
              ((graph.removeNodes (nsBigUnion Xs graph.neighbors)).componentOf o)
              graph.neighbors)
            ((graph.removeNodes (nsBigUnion Xs graph.neighbors)).componentOf o))) ∧
       (o ∉ (graph.removeNodes (nsBigUnion Xs graph.neighbors)).nodes →
        close_separator graph o Xs = .error PyErr.valueError))) ∧
    close_separator sepExampleGraph 6 [1] = .ok [2, 3] := by
  constructor
  · intro V _ graph o Xs hne hin
    constructor
    · intro ho
      unfold close_separator
      rw [unionNeighbors_ok hne hin, exceptBind_ok, if_pos ho]
      dsimp only
      have hCin : ∀ b ∈ (graph.removeNodes
          (nsBigUnion Xs graph.neighbors)).componentOf o, b ∈ graph.nodes := by
        intro b hb
        have := componentOf_subset b hb
        unfold NxGraph.removeNodes at this
        exact (mem_nsDiff.mp this).1
      have hCne : (graph.removeNodes
          (nsBigUnion Xs graph.neighbors)).componentOf o ≠ [] :=
        List.ne_nil_of_mem (mem_componentOf ho)
      rw [unionNeighbors_ok hCne hCin, exceptBind_ok]
      rfl
    · intro ho
      unfold close_separator
      rw [unionNeighbors_ok hne hin, exceptBind_ok, if_neg ho]
      rfl
  · decide

/-- C8: witness instantiating the general part on the scenario graph
with `Xs = {a} = {1}` and `o = b = 6`. -/
theorem C8_witness :
    (([1] : List Nat) ≠ []) ∧
    (∀ x ∈ ([1] : List Nat), x ∈ sepExampleGraph.nodes) ∧
    6 ∈ (sepExampleGraph.removeNodes
      (nsBigUnion [1] sepExampleGraph.neighbors)).nodes ∧
    close_separator sepExampleGraph 6 [1] =
      .ok (nsDiff
        (nsBigUnion
          ((sepExampleGraph.removeNodes
            (nsBigUnion [1] sepExampleGraph.neighbors)).componentOf 6)
          sepExampleGraph.neighbors)
        ((sepExampleGraph.removeNodes
          (nsBigUnion [1] sepExampleGraph.neighbors)).componentOf 6)) :=
  ⟨by decide, by decide, by decide,
   (C8_theorem.1 Nat sepExampleGraph 6 [1] (by decide) (by decide)).1 (by decide)⟩

/-- Under any heuristic other than `all`, the size loop entered with a
clear found-flag returns exactly the records of the first size whose
scan is non-empty (all records of that size, nothing afterwards). -/
theorem sizeLoop_break {heuristic : String} (hne : heuristic ≠ "all")
    (valid : Nat → List (CondIndep V)) :
    ∀ sizes : List Nat, sizeLoop heuristic valid sizes false = firstFound sizes valid := by
  intro sizes
  induction sizes with
  | nil => rfl
  | cons k rest ih =>
    simp only [sizeLoop]
    cases hv : (valid k).isEmpty with
    | true =>
      have hnil : valid k = [] := List.isEmpty_iff.mp hv
      simp only [Bool.not_true, Bool.or_false]
      rw [if_neg (by simp)]
      rw [hnil, List.nil_append, ih]
      unfold firstFound
      rw [List.find?_cons_of_neg _ (by simp [hv])]
    | false =>
      simp only [Bool.not_false, Bool.or_true]
      rw [if_pos ⟨hne, trivial⟩, List.append_nil]
      unfold firstFound
      rw [List.find?_cons_of_pos _ (by simp [hv])]

/-- Under the `all` heuristic the size loop never breaks and records
every valid conditioning set of every size. -/
theorem sizeLoop_all (valid : Nat → List (CondIndep V)) :
    ∀ (sizes : List Nat) (found : Bool),
      sizeLoop "all" valid sizes found = sizes.flatMap valid := by
  intro sizes
  induction sizes with
  | nil => intro found; rfl
  | cons k rest ih =>
    intro found
    simp only [sizeLoop]
    rw [if_neg (by intro h; exact h.1 rfl), ih]
    simp [List.flatMap_cons]

/-- C9: amended claim, proved.  For every DAG, node pair and ambient
node list: under `minimal` and `min_direct` the per-pair search scans
conditioning-set sizes in increasing order `1, …, n` and returns all
valid records of the first productive size; under `maximal` it scans in
decreasing order starting at the vacuous size `n + 1` and stopping at
size `2` (sizes `n + 1, n, …, 2`, never size `1` — the amendment forced
by the counterexample) with the same stopping rule; under `all` it
records every valid conditioning set of every size `1, …, n`.  The
union of the direct predecessors of `y` into each candidate set under
`min_direct` is part of the definition of `validZs`. -/
theorem C9_theorem :
    (∀ (V : Type) [LinearOrder V] (g : NxDiGraph V) (x y : V)
       (nodesList : List V),
       ciForPair g "minimal" x y nodesList =
         firstFound (List.range' 1 nodesList.length)
           (validZs g "minimal" x y nodesList)) ∧
    (∀ (V : Type) [LinearOrder V] (g : NxDiGraph V) (x y : V)
       (nodesList : List V),
       ciForPair g "min_direct" x y nodesList =
         firstFound (List.range' 1 nodesList.length)
           (validZs g "min_direct" x y nodesList)) ∧
    (∀ (V : Type) [LinearOrder V] (g : NxDiGraph V) (x y : V)
       (nodesList : List V),
       ciForPair g "maximal" x y nodesList =
         firstFound ((List.range' 2 nodesList.length).reverse)
           (validZs g "maximal" x y nodesList)) ∧
    (∀ (V : Type) [LinearOrder V] (g : NxDiGraph V) (x y : V)
       (nodesList : List V),
       ciForPair g "all" x y nodesList =
         (List.range' 1 nodesList.length).flatMap
           (validZs g "all" x y nodesList)) ∧
    (∀ (V : Type) [LinearOrder V] (g : NxDiGraph V) (heuristic : String),
       2 ≤ g.nodes.length →
       list_conditional_independence_relationships g heuristic =
         some ((combinations 2 g.nodes).flatMap (fun p =>
           match p with
           | [x, y] =>
             (if d_separated g [x] [y] [] then [CondIndep.mk x y []] else []) ++
               ciForPair g heuristic x y
                 (g.nodes.filter (fun v => decide (v ≠ x ∧ v ≠ y)))
           | _ => []))) := by
  refine ⟨?_, ?_, ?_, ?_, ?_⟩
  · intro V _ g x y nodesList
    exact sizeLoop_break (by decide) _ _
  · intro V _ g x y nodesList
    exact sizeLoop_break (by decide) _ _
  · intro V _ g x y nodesList
    exact sizeLoop_break (by decide) _ _
  · intro V _ g x y nodesList
    exact sizeLoop_all _ _ _
  · intro V _ g heuristic h2
    unfold list_conditional_independence_relationships
    rw [if_neg (Nat.not_lt.mpr h2)]

/-- C9: counterexample.  On the chain DAG `X→Z→Y` the only non-trivial
conditioning set is `{Z}`, of size `1`: the `minimal` heuristic finds
the relationship `X ⫫ Y | {Z}` and `{Z}` indeed d-separates `X` and
`Y`; but the `maximal` heuristic returns the empty list, because its
size scan `range(n + 1, 1, -1)` stops at size `2` and never examines
size-`1` conditioning sets, contradicting the claimed scan "down to
1". -/
theorem C9_counterexample :
    list_conditional_independence_relationships chainDAG "maximal" = some [] ∧
    list_conditional_independence_relationships chainDAG "minimal" =
      some [CondIndep.mk 1 3 [2]] ∧
    d_separated chainDAG [1] [3] [2] = true := by
  refine ⟨by decide, by decide, by decide⟩

/-- C9: witness instantiating the top-level characterisation on the
chain DAG with the `maximal` heuristic, discharging the two-node
hypothesis. -/
theorem C9_witness :
    2 ≤ chainDAG.nodes.length ∧
    list_conditional_independence_relationships chainDAG "maximal" =
      some ((combinations 2 chainDAG.nodes).flatMap (fun p =>
        match p with
        | [x, y] =>
          (if d_separated chainDAG [x] [y] [] then [CondIndep.mk x y []] else []) ++
            ciForPair chainDAG "maximal" x y
              (chainDAG.nodes.filter (fun v => decide (v ≠ x ∧ v ≠ y)))
        | _ => [])) :=
  ⟨by decide, C9_theorem.2.2.2.2 Nat chainDAG "maximal" (by decide)⟩
